import Mathlib

/-! # Verification of the pyani SGE scheduler (`pyani/run_sge.py`)

Shallow embedding of the dependency-aware batch job scheduler:
the `JobGroup` parameter-sweep encoder, the dependency-graph
flattener, the workspace layout builder, the wavefront submitter and
the completion poller.  External effects (`os.system`, `time.sleep`,
`os.mkdir`) are modelled as explicit state or oracles; Python's
insertion-ordered `dict` is modelled as an association list.
-/

namespace RunSge

/-! ## JobGroup and `generate_script` (run_sge.py lines 20-86)

The script is a string built exactly as the Python code builds it;
literal braces in shell text are written with escapes.
-/

/-- One `KEY_ARRAY=( v1 v2 ... )` declaration line, as built by the
loop at lines 62-70: `"%s_ARRAY=( "` then each value followed by a
space, then `" )\n"`. -/
def arrayLine (key : String) (values : List String) : String :=
  key ++ "_ARRAY=( " ++ String.join (values.map (fun v => v ++ " ")) ++ " )\n"

/-- The three decoding lines emitted for one key at lines 74-78:
`let "KEY_INDEX=$TASK_ID % count"`, `KEY=${KEY_ARRAY[$KEY_INDEX]}`,
`let "TASK_ID=$TASK_ID / count"`. -/
def decodeLines (key : String) (count : Nat) : String :=
  "let \"" ++ key ++ "_INDEX=$TASK_ID % " ++ toString count ++ "\"\n" ++
  key ++ "=$\x7b" ++ key ++ "_ARRAY[$" ++ key ++ "_INDEX]\x7d\n" ++
  "let \"TASK_ID=$TASK_ID / " ++ toString count ++ "\"\n"

/-- Concatenation of a list of script fragments, as accumulated by the
`self.script +=` statements of the source's for-loops. -/
def scriptConcat : List String → String
  | [] => ""
  | s :: rest => s ++ scriptConcat rest

/-- Model of `JobGroup.generate_script` (lines 51-86): returns the script text
and the task total.  `arguments` is the insertion-ordered dict of
argument name to value list; `total` is the product of the value-list
lengths accumulated by `total *= len(values)` starting from 1. -/
def generate_script (arguments : List (String × List String))
    (command : String) : String × Nat :=
  let header := "let \"TASK_ID=$SGE_TASK_ID - 1\"\n"
  let arrays := scriptConcat (arguments.map (fun p => arrayLine p.1 p.2))
  let total := (arguments.map (fun p => p.2.length)).prod
  let decodes := scriptConcat (arguments.map (fun p => decodeLines p.1 p.2.length))
  (header ++ arrays ++ "\n" ++ decodes ++ "\n" ++ command ++ "\n", total)

/-- The `JobGroup` object state after `__init__` and the
`generate_script` call it makes. -/
structure JobGroup where
  name : String
  queue : Option String
  command : String
  dependencies : List String
  submitted : Bool
  arguments : List (String × List String)
  script : String
  tasks : Nat
  deriving Repr, DecidableEq

/-- Model of `JobGroup.__init__` (lines 22-49).  Note line 46 of the source:
`self.submitted = True` — the flag is set true at construction. -/
def JobGroup.init (name command : String) (queue : Option String)
    (arguments : List (String × List String)) : JobGroup :=
  { name := name
    queue := queue
    command := command
    dependencies := []
    submitted := true
    arguments := arguments
    script := (generate_script arguments command).1
    tasks := (generate_script arguments command).2 }

/-! ## Denotation of the emitted mixed-radix decoding

The decoding fragment emitted by `generate_script` performs, for each
argument name in order, `INDEX := TASK_ID % count; TASK_ID := TASK_ID
/ count`.  `decode ks t` is the list of selected positions this
computes for radices `ks` (the value-list lengths, in dict order) on
zero-based task index `t`; `encode` is its inverse. -/
def decode : List Nat → Nat → List Nat
  | [], _ => []
  | k :: ks, t => (t % k) :: decode ks (t / k)

/-- Mixed-radix composition: the task index whose decoding selects the
given positions. -/
def encode : List Nat → List Nat → Nat
  | [], _ => 0
  | _ :: _, [] => 0
  | k :: ks, i :: is => i + k * encode ks is

/-- A position list is a valid combination for radices `ks` when it
has one entry per radix, each below its radix. -/
def ValidCombo (ks is : List Nat) : Prop :=
  List.Forall₂ (fun i k => i < k) is ks

instance (ks is : List Nat) : Decidable (ValidCombo ks is) := by
  unfold ValidCombo; infer_instance

theorem decode_valid (ks : List Nat) (hpos : ∀ k ∈ ks, 0 < k) (t : Nat) :
    ValidCombo ks (decode ks t) := by
  induction ks generalizing t with
  | nil => exact List.Forall₂.nil
  | cons k ks ih =>
      exact List.Forall₂.cons
        (Nat.mod_lt _ (hpos k (List.mem_cons_self _ _)))
        (ih (fun x hx => hpos x (List.mem_cons_of_mem _ hx)) (t / k))

theorem encode_decode (ks : List Nat) (hpos : ∀ k ∈ ks, 0 < k)
    (t : Nat) (ht : t < ks.prod) : encode ks (decode ks t) = t := by
  induction ks generalizing t with
  | nil =>
      simp only [List.prod_nil] at ht
      interval_cases t
      rfl
  | cons k ks ih =>
      have hk : 0 < k := hpos k (List.mem_cons_self _ _)
      have hdiv : t / k < ks.prod := by
        rw [Nat.div_lt_iff_lt_mul hk]
        calc t < (k :: ks).prod := ht
          _ = ks.prod * k := by rw [List.prod_cons, Nat.mul_comm]
      simp only [decode, encode]
      rw [ih (fun x hx => hpos x (List.mem_cons_of_mem _ hx)) _ hdiv]
      exact Nat.mod_add_div t k

theorem decode_encode (ks is : List Nat) (h : ValidCombo ks is) :
    decode ks (encode ks is) = is := by
  induction h with
  | nil => rfl
  | @cons i k is ks hik _ ih =>
      have hk : 0 < k := Nat.lt_of_le_of_lt (Nat.zero_le i) hik
      have h1 : (i + k * encode ks is) % k = i := by
        rw [Nat.add_mul_mod_self_left]
        exact Nat.mod_eq_of_lt hik
      have h2 : (i + k * encode ks is) / k = encode ks is := by
        rw [Nat.add_mul_div_left _ _ hk, Nat.div_eq_of_lt hik, Nat.zero_add]
      simp only [encode, decode]
      rw [h1, h2, ih]

theorem encode_lt (ks is : List Nat) (h : ValidCombo ks is) :
    encode ks is < ks.prod := by
  induction h with
  | nil => exact Nat.zero_lt_one
  | @cons i k is ks hik htl ih =>
      simp only [encode, List.prod_cons]
      calc i + k * encode ks is
          < k + k * encode ks is := Nat.add_lt_add_right hik _
        _ = k * (encode ks is + 1) := by ring
        _ ≤ k * ks.prod := Nat.mul_le_mul_left k (Nat.succ_le_of_lt ih)

/-! ## Job objects and the dependency-graph flattener

Python Job/JobGroup objects reference their dependencies directly as
objects (not names), so the reachable object graph of a (finite,
acyclic) pipeline is a forest of rose trees with sharing; `JobT`
captures exactly the data the flattener and submitter read: the name
and the dependency references.  Job names are unique (spec §3), so
equality of trees models object identity. -/

inductive JobT where
  | mk : String → List JobT → JobT
  deriving Repr

mutual
def JobT.decEq : (a b : JobT) → Decidable (a = b)
  | .mk n ds, .mk n' ds' =>
      match String.decEq n n' with
      | isFalse h => isFalse (by simp [h])
      | isTrue h =>
        match JobT.decEqList ds ds' with
        | isFalse h2 => isFalse (by simp [h, h2])
        | isTrue h2 => isTrue (by rw [h, h2])

def JobT.decEqList : (as bs : List JobT) → Decidable (as = bs)
  | [], [] => isTrue rfl
  | [], _ :: _ => isFalse (by simp)
  | _ :: _, [] => isFalse (by simp)
  | a :: as, b :: bs =>
      match JobT.decEq a b with
      | isFalse h => isFalse (by simp [h])
      | isTrue h =>
        match JobT.decEqList as bs with
        | isFalse h2 => isFalse (by simp [h2])
        | isTrue h2 => isTrue (by rw [h, h2])
end

instance : DecidableEq JobT := JobT.decEq

def JobT.name : JobT → String
  | .mk n _ => n

def JobT.deps : JobT → List JobT
  | .mk _ ds => ds

/-! `populate_jobset` (run_sge.py lines 174-183): adds the job to the
set, returns early when the dependency list is empty, otherwise folds
itself over the dependencies.  The unused `depth` parameter of the
source is kept.  `populate_list` is the `for j in job.dependencies`
loop threading the accumulated set. -/
mutual
def populate_jobset : JobT → Finset JobT → Nat → Finset JobT
  | .mk n ds, jobset, depth =>
      let js := insert (JobT.mk n ds) jobset
      if ds.length = 0 then js
      else populate_list ds js depth

def populate_list : List JobT → Finset JobT → Nat → Finset JobT
  | [], s, _ => s
  | j :: rest, s, d => populate_list rest (populate_jobset j s (d+1)) d
end

mutual
/-- The set of jobs reachable from a job through dependency edges,
the job itself included. -/
def reach : JobT → Finset JobT
  | .mk n ds => insert (JobT.mk n ds) (reachList ds)

def reachList : List JobT → Finset JobT
  | [] => ∅
  | j :: rest => reach j ∪ reachList rest
end

mutual
theorem populate_jobset_eq : ∀ (j : JobT) (s : Finset JobT) (d : Nat),
    populate_jobset j s d = reach j ∪ s
  | .mk n ds, s, d => by
      rw [populate_jobset, reach]
      by_cases h : ds.length = 0
      · rw [List.length_eq_zero] at h
        subst h
        rw [if_pos (show ([] : List JobT).length = 0 from rfl)]
        simp only [reachList]
        ext x
        simp only [Finset.mem_union, Finset.mem_insert, Finset.mem_singleton]
        tauto
      · simp only [if_neg h]
        rw [populate_list_eq ds _ d]
        ext x
        simp only [Finset.mem_union, Finset.mem_insert]
        tauto

theorem populate_list_eq : ∀ (ds : List JobT) (s : Finset JobT) (d : Nat),
    populate_list ds s d = reachList ds ∪ s
  | [], s, d => by simp [populate_list, reachList]
  | j :: rest, s, d => by
      rw [populate_list, populate_list_eq rest _ d, populate_jobset_eq j s (d+1),
        reachList]
      ext x
      simp only [Finset.mem_union]
      tauto
end

/-- The dependency edge relation: `DepStep a b` holds when `b` is in
the dependency list of `a`. -/
def DepStep (a b : JobT) : Prop := b ∈ a.deps

mutual
theorem mem_reach : ∀ (r j : JobT),
    j ∈ reach r ↔ Relation.ReflTransGen DepStep r j
  | .mk n ds, j => by
      rw [reach, Finset.mem_insert, mem_reachRT ds j]
      constructor
      · rintro (h | ⟨d, hd, hrt⟩)
        · subst h
          exact Relation.ReflTransGen.refl
        · exact Relation.ReflTransGen.head hd hrt
      · intro h
        rcases h.cases_head with h | ⟨c, hc, hrt⟩
        · exact Or.inl h.symm
        · exact Or.inr ⟨c, hc, hrt⟩

theorem mem_reachRT : ∀ (ds : List JobT) (j : JobT),
    j ∈ reachList ds ↔ ∃ d ∈ ds, Relation.ReflTransGen DepStep d j
  | [], j => by simp [reachList]
  | d :: rest, j => by
      rw [reachList, Finset.mem_union, mem_reach d j, mem_reachRT rest j]
      constructor
      · rintro (h | ⟨e, he, hrt⟩)
        · exact ⟨d, List.mem_cons_self _ _, h⟩
        · exact ⟨e, List.mem_cons_of_mem _ he, hrt⟩
      · rintro ⟨e, he, hrt⟩
        rcases List.mem_cons.mp he with h | h
        · exact Or.inl (h ▸ hrt)
        · exact Or.inr ⟨e, h, hrt⟩
end

/-- The flattening loop of `run_dependency_graph` (lines 133-135):
`jobset = set(); for job in jobgraph: jobset = populate_jobset(job,
jobset, depth=1)`. -/
def flatten_jobset (jobgraph : List JobT) : Finset JobT :=
  jobgraph.foldl (fun s j => populate_jobset j s 1) ∅

theorem flatten_jobset_eq_aux (jobgraph : List JobT) (s : Finset JobT) :
    jobgraph.foldl (fun acc j => populate_jobset j acc 1) s
      = reachList jobgraph ∪ s := by
  induction jobgraph generalizing s with
  | nil => simp [reachList]
  | cons r rest ih =>
      rw [List.foldl_cons, ih, populate_jobset_eq, reachList]
      ext x
      simp only [Finset.mem_union]
      tauto

theorem mem_flatten_jobset (jobgraph : List JobT) (j : JobT) :
    j ∈ flatten_jobset jobgraph
      ↔ ∃ r ∈ jobgraph, Relation.ReflTransGen DepStep r j := by
  rw [flatten_jobset, flatten_jobset_eq_aux, Finset.union_empty, mem_reachRT]

/-! ## Wavefront submitter (run_sge.py lines 222-291)

The `submitted` flags live on the Job objects; the model threads the
set `sub` of jobs whose flag is currently true.  `qsub` invocations
are external effects, modelled by the log of submitted job names in
submission order. -/

/-- Model of `extract_submittable_jobs` (lines 222-237): a job is kept
exactly when `sum(subjob.submitted is False for subjob in
job.dependencies)` is zero.  The source returns `list(submittable)`
from a Python `set`, whose iteration order is unspecified; the model
resolves that nondeterminism to the waiting-list order. -/
def extract_submittable_jobs (sub : Finset JobT) (waiting : List JobT) :
    List JobT :=
  waiting.filter
    (fun job => (job.deps.countP (fun subjob => decide (subjob ∉ sub))) == 0)

/-- Model of `submit_safe_jobs` (lines 240-272): for each job in order,
the `qsub` command line is run via `os.system` (modelled by appending
the job name to this call's submission log) and then line 272 sets
`job.submitted = True` — without inspecting the `os.system` return
value.  Returns the updated submitted-set and the log. -/
def submit_safe_jobs (sub : Finset JobT) (jobs : List JobT) :
    Finset JobT × List String :=
  jobs.foldl (fun acc job => (insert job acc.1, acc.2 ++ [job.name])) (sub, [])

/-- Fuelled model of the `while len(waiting) > 0` loop of `submit_jobs`
(lines 275-291).  The body has no error path: when the submittable
subset is empty the body removes nothing from `waiting` and the source
loops forever; fuel only truncates the model of such a run.  Returns
the submission log and the remaining waiting list. -/
def submit_jobs_loop : Nat → Finset JobT → List JobT → List String →
    List String × List JobT
  | 0, _, waiting, log => (log, waiting)
  | fuel + 1, sub, waiting, log =>
      if waiting.length = 0 then (log, waiting)
      else
        let submittable := extract_submittable_jobs sub waiting
        let step := submit_safe_jobs sub submittable
        let waiting' := waiting.filter (fun job => decide (job ∉ submittable))
        submit_jobs_loop fuel step.1 waiting' (log ++ step.2)

/-- Model of `submit_jobs` (lines 275-291): run the loop with enough fuel
for any run that makes progress on every round. -/
def submit_jobs (sub : Finset JobT) (jobs : List JobT) :
    List String × List JobT :=
  submit_jobs_loop (jobs.length + 1) sub jobs []

/-! ## The tail of `run_dependency_graph` (lines 136-171) -/

/-- Model of `run_dependency_graph` after the flattening loop, given
`joblist = list(jobset)`.  `dep_count` totals the dependency edges
(lines 139-148).  When `dep_count == 0` the grouping block runs: line
155 evaluates `job.split(' ', 1)` on a Job object — an
`AttributeError` for any nonempty joblist.  When `dep_count > 0`,
line 158 reads `arglists`, which was only ever bound inside the
`dep_count == 0` branch — a `NameError`.  Only an empty joblist
reaches line 168, and it does so with `joblist = jobgroups` (line
160), where `jobgroups = []` (line 157) never has anything appended:
the loop at lines 158-159 binds `jg` and discards it.  The `ok`
result is the list handed to `build_and_submit_jobs` and then polled
job by job with `wait` (lines 168-171). -/
def run_dependency_graph_final (joblist : List JobT) :
    Except String (List JobGroup) :=
  let dep_count := (joblist.map (fun job => job.deps.length)).sum
  if dep_count = 0 then
    match joblist with
    | [] =>
        let jobgroups : List JobGroup := []
        Except.ok jobgroups
    | _ :: _ =>
        Except.error "AttributeError: Job object has no attribute split"
  else Except.error "NameError: name arglists is not defined"

/-! ## Workspace layout (`build_directories`, lines 186-204)

The filesystem is modelled as the finite set of existing directory
paths, a path being the list of its components; `os.path.join(a, b)`
appends a component, `os.mkdir` inserts a path (failing if it already
exists, as `os.mkdir` does), `os.path.exists` is membership.  The
source guards every `os.mkdir` with `os.path.exists`. -/

abbrev FsPath := List String

def os_path_join (root_dir : FsPath) (subdir : String) : FsPath :=
  root_dir ++ [subdir]

/-- Model of `os.mkdir`: fails when the path already exists. -/
def mkdir (fs : Finset FsPath) (dirname : FsPath) :
    Except String (Finset FsPath) :=
  if dirname ∈ fs then Except.error "FileExistsError"
  else Except.ok (insert dirname fs)

/-- Model of `build_directories` (lines 186-204): create the root if
missing, then create each of `output`, `stderr`, `stdout`, `jobs`
under it when missing (the list comprehension at line 204). -/
def build_directories (root_dir : FsPath) (fs : Finset FsPath) :
    Except String (Finset FsPath) :=
  match (if root_dir ∈ fs then Except.ok fs else mkdir fs root_dir) with
  | Except.error e => Except.error e
  | Except.ok fs1 =>
      (["output", "stderr", "stdout", "jobs"].map (os_path_join root_dir)).foldlM
        (fun s dirname =>
          if dirname ∈ s then Except.ok s else mkdir s dirname) fs1

/-- The directory state `build_directories` leaves behind: the root
and its four subdirectories added to the previous state. -/
def build_directories_set (root_dir : FsPath) (fs : Finset FsPath) :
    Finset FsPath :=
  insert (os_path_join root_dir "jobs")
    (insert (os_path_join root_dir "stdout")
      (insert (os_path_join root_dir "stderr")
        (insert (os_path_join root_dir "output") (insert root_dir fs))))

/-! ## Completion poller (`JobGroup.wait`, lines 106-113)

The imports of `run_sge.py` are `collections.defaultdict`,
`pyani_config` and `os`; the name `time` is never bound in the
module, so evaluating `time.sleep` at line 111 raises `NameError`. -/

/-- The callee `time.sleep` as resolved in the module namespace of
`run_sge.py`: the module never imports `time`, so evaluating the name
raises before any sleeping happens. -/
def time_sleep (_interval : Nat) : Except String Unit :=
  Except.error "NameError: name time is not defined"

/-- Fuelled model of the `while not finished` loop (lines 110-113) in
source statement order: each iteration first evaluates
`time.sleep(interval)` (line 111), then sets
`interval = min(2 * interval, 60)` (line 112), then runs the
`qstat -j <name>` liveness check (line 113) — `alive n` true means
the job is still listed, `os.system` returns 0, which is falsy, and
the loop continues.  The `ok` value is the list of sleep intervals of
a completed run; an exception propagates out as `error`. -/
def wait_loop (alive : Nat → Bool) : Nat → Nat → Nat →
    Except String (List Nat)
  | 0, _, _ => Except.error "out of fuel"
  | fuel + 1, interval, n =>
      match time_sleep interval with
      | Except.error e => Except.error e
      | Except.ok _ =>
          let next := min (2 * interval) 60
          if alive n then
            match wait_loop alive fuel next (n + 1) with
            | Except.error e => Except.error e
            | Except.ok rest => Except.ok (interval :: rest)
          else Except.ok [interval]

/-- Model of `JobGroup.wait` (lines 106-113): `finished = False` and
`interval = 5`, then the loop is entered at poll index 0. -/
def wait_call (alive : Nat → Bool) (fuel : Nat) : Except String (List Nat) :=
  wait_loop alive fuel 5 0

/-! ## Supporting lemmas -/

theorem except_ok_bind {α β : Type} (x : α) (f : α → Except String β) :
    (Except.ok x >>= f) = f x := rfl

theorem cond_mkdir (fs : Finset FsPath) (d : FsPath) :
    (if d ∈ fs then (Except.ok fs : Except String (Finset FsPath))
      else mkdir fs d) = Except.ok (insert d fs) := by
  by_cases h : d ∈ fs
  · rw [if_pos h, Finset.insert_eq_self.mpr h]
  · rw [if_neg h, mkdir, if_neg h]

/-- No `os.mkdir` call of `build_directories` can fail: each one is
guarded by `os.path.exists`, so the function always succeeds and
leaves behind the previous state plus the root and its four
subdirectories. -/
theorem build_directories_ok (root_dir : FsPath) (fs : Finset FsPath) :
    build_directories root_dir fs
      = Except.ok (build_directories_set root_dir fs) := by
  unfold build_directories
  rw [cond_mkdir]
  simp only [List.map_cons, List.map_nil, List.foldlM_cons, List.foldlM_nil,
    cond_mkdir, except_ok_bind]
  rfl

theorem mem_build_directories_set (root_dir : FsPath) (fs : Finset FsPath)
    (p : FsPath) :
    p ∈ build_directories_set root_dir fs
      ↔ p = root_dir
        ∨ p = os_path_join root_dir "output"
        ∨ p = os_path_join root_dir "stderr"
        ∨ p = os_path_join root_dir "stdout"
        ∨ p = os_path_join root_dir "jobs"
        ∨ p ∈ fs := by
  simp only [build_directories_set, Finset.mem_insert]
  tauto

theorem os_path_join_ne_root (root_dir : FsPath) (s : String) :
    os_path_join root_dir s ≠ root_dir := by
  intro h
  have := congrArg List.length h
  simp [os_path_join] at this

theorem os_path_join_inj (root_dir : FsPath) (s t : String) :
    os_path_join root_dir s = os_path_join root_dir t ↔ s = t := by
  unfold os_path_join
  rw [List.append_right_inj]
  simp

/-- When the submittable subset is empty and jobs are still waiting,
one iteration of the `submit_jobs` loop changes nothing: the loop
body is a fixpoint, so the source's `while` loop runs forever without
raising anything. -/
theorem submit_jobs_loop_stuck (sub : Finset JobT) (waiting : List JobT)
    (hempty : extract_submittable_jobs sub waiting = [])
    (hne : waiting ≠ []) :
    ∀ (fuel : Nat) (log : List String),
      submit_jobs_loop fuel sub waiting log = (log, waiting) := by
  intro fuel
  induction fuel with
  | zero => intro log; rfl
  | succ f ih =>
      intro log
      rw [submit_jobs_loop]
      rw [if_neg (by simpa using hne)]
      simp only [hempty]
      have hfilter : waiting.filter
          (fun job => decide (job ∉ ([] : List JobT))) = waiting := by
        apply List.filter_eq_self.mpr
        intro a _
        simp
      rw [hfilter]
      have hlog : log ++ (submit_safe_jobs sub []).2 = log := by
        simp [submit_safe_jobs]
      rw [show (submit_safe_jobs sub []).1 = sub from rfl, hlog]
      exact ih log

theorem generate_script_fst (args : List (String × List String))
    (command : String) :
    (generate_script args command).1
      = "let \"TASK_ID=$SGE_TASK_ID - 1\"\n"
          ++ scriptConcat (args.map (fun p => arrayLine p.1 p.2))
          ++ "\n" ++ scriptConcat (args.map (fun p => decodeLines p.1 p.2.length))
          ++ "\n" ++ command ++ "\n" := rfl

theorem generate_script_snd (args : List (String × List String))
    (command : String) :
    (generate_script args command).2
      = (args.map (fun p => p.2.length)).prod := rfl

theorem scriptConcat_split {α : Type} (f : α → String) :
    ∀ (l : List α) (a : α), a ∈ l →
      ∃ pre post, scriptConcat (l.map f) = pre ++ (f a ++ post) := by
  intro l
  induction l with
  | nil => intro a ha; cases ha
  | cons b l ih =>
      intro a ha
      rcases List.mem_cons.mp ha with h | h
      · subst h
        exact ⟨"", scriptConcat (l.map f), by simp [scriptConcat]⟩
      · obtain ⟨pre, post, hpp⟩ := ih a h
        refine ⟨f b ++ pre, post, ?_⟩
        rw [List.map_cons, scriptConcat, hpp, String.append_assoc]

/-! ## Claim theorems -/

/-- C1: for every arguments mapping with non-empty value lists,
`JobGroup.generate_script` sets `tasks` to the product of the value-list
lengths, and the mixed-radix decoding its emitted script performs (for
each name in order: position = index mod k, then index = index div k,
which is exactly `decode` on the radix list, the first-listed argument
decoded first and hence fastest-varying) maps the task indices
`0 .. product-1` onto the set of all combinations bijectively:
`decode` lands in the valid combinations and `encode` inverts it both
ways, so every combination is selected exactly once. -/
theorem C1_sweep_encoder_bijective (name command : String)
    (args : List (String × List String))
    (hne : ∀ p ∈ args, p.2 ≠ []) :
    (JobGroup.init name command none args).tasks
        = (args.map (fun p => p.2.length)).prod ∧
    (∀ t, t < (args.map (fun p => p.2.length)).prod →
        ValidCombo (args.map (fun p => p.2.length))
            (decode (args.map (fun p => p.2.length)) t) ∧
        encode (args.map (fun p => p.2.length))
            (decode (args.map (fun p => p.2.length)) t) = t) ∧
    (∀ is, ValidCombo (args.map (fun p => p.2.length)) is →
        encode (args.map (fun p => p.2.length)) is
            < (args.map (fun p => p.2.length)).prod ∧
        decode (args.map (fun p => p.2.length))
            (encode (args.map (fun p => p.2.length)) is) = is) := by
  have hpos : ∀ k ∈ args.map (fun p => p.2.length), 0 < k := by
    intro k hk
    obtain ⟨p, hp, rfl⟩ := List.mem_map.mp hk
    exact List.length_pos.mpr (hne p hp)
  refine ⟨rfl, ?_, ?_⟩
  · intro t ht
    exact ⟨decode_valid _ hpos t, encode_decode _ hpos t ht⟩
  · intro is his
    exact ⟨encode_lt _ is his, decode_encode _ is his⟩

/-- Witness for C1 at the spec's sweep-coverage example
`{a:[1,2], b:[x,y,z]}`: six tasks, and the decoding of task index 4
round-trips; the decoded combinations of indices 0..5 are the six
pairs in fastest-first order. -/
theorem C1_sweep_encoder_bijective_witness :
    (JobGroup.init "g" "cmd" none
        [("a", ["1", "2"]), ("b", ["x", "y", "z"])]).tasks = 6 ∧
    encode [2, 3] (decode [2, 3] 4) = 4 ∧
    (List.range 6).map (decode [2, 3])
      = [[0, 0], [1, 0], [0, 1], [1, 1], [0, 2], [1, 2]] := by
  have h := C1_sweep_encoder_bijective "g" "cmd"
    [("a", ["1", "2"]), ("b", ["x", "y", "z"])] (by decide)
  exact ⟨by rw [h.1]; decide, (h.2.1 4 (by decide)).2, by decide⟩

/-- C2: the claim — `submitted` is false immediately after construction
and becomes true only after a successful external submission — is the
spec's stated invariant (§3, §9), but the source violates it:
`JobGroup.__init__` line 46 sets `self.submitted = True` at
construction (and `submit_safe_jobs` line 272 sets it true without
inspecting the `os.system` result).  This theorem evaluates the
constructor: a freshly built job already carries `submitted = true`. -/
theorem C2_submitted_true_at_construction :
    (JobGroup.init "j1" "cmd" none []).submitted = true := rfl

/-- C3: the claim — no job handed to the external system before its
dependencies are submitted; on the chain A→B→C the submission order
must be C, then B, then A — fails on the source: because the
constructor leaves every job marked submitted (line 46), the first
wavefront of `submit_jobs` already contains the whole chain and A is
handed to `qsub` first.  With the spec's required fix (all flags
false initially) the same loop submits C, B, A. -/
theorem C3_wavefront_order_violated :
    ((extract_submittable_jobs
        {JobT.mk "A" [JobT.mk "B" [JobT.mk "C" []]],
          JobT.mk "B" [JobT.mk "C" []], JobT.mk "C" []}
        [JobT.mk "A" [JobT.mk "B" [JobT.mk "C" []]],
          JobT.mk "B" [JobT.mk "C" []], JobT.mk "C" []]).map JobT.name
      = ["A", "B", "C"]) ∧
    (submit_jobs
        {JobT.mk "A" [JobT.mk "B" [JobT.mk "C" []]],
          JobT.mk "B" [JobT.mk "C" []], JobT.mk "C" []}
        [JobT.mk "A" [JobT.mk "B" [JobT.mk "C" []]],
          JobT.mk "B" [JobT.mk "C" []], JobT.mk "C" []]).1
      = ["A", "B", "C"] ∧
    (submit_jobs ∅
        [JobT.mk "A" [JobT.mk "B" [JobT.mk "C" []]],
          JobT.mk "B" [JobT.mk "C" []], JobT.mk "C" []]).1
      = ["C", "B", "A"] := by decide

/-- C4: the claim says an empty submittable subset with a non-empty
waiting set raises a fatal configuration error; the source's
`submit_jobs` loop has no error path at all.  For the concrete job A
depending on an X outside the waiting set (X's flag false), every
fuel bound leaves the loop exactly where it started — the `while`
loop runs forever, submitting nothing and raising nothing. -/
theorem C4_stuck_loop_never_errors :
    ∀ fuel : Nat,
      submit_jobs_loop fuel ∅ [JobT.mk "A" [JobT.mk "X" []]] []
        = ([], [JobT.mk "A" [JobT.mk "X" []]]) :=
  fun fuel =>
    submit_jobs_loop_stuck ∅ [JobT.mk "A" [JobT.mk "X" []]]
      (by decide) (by decide) fuel []

/-- C5: the claim says `run_dependency_graph` submits exactly the
flattened job set and waits on each submitted job.  In the source the
grouping block (lines 150-160) runs unconditionally: `jobgroups = []`
never has anything appended (line 159 binds `jg` and discards it) and
`joblist = jobgroups` replaces the flattened list, so any run that
reaches submission submits and waits on the empty list — and for any
nonempty flattened set the block crashes first (`job.split` on a Job
object, or the unbound `arglists`).  The one-job graph J flattens to
`{J}` but the function errors before submitting anything. -/
theorem C5_run_dependency_graph_submits_nothing :
    (∀ (joblist : List JobT) (gs : List JobGroup),
        run_dependency_graph_final joblist = Except.ok gs → gs = []) ∧
    run_dependency_graph_final [JobT.mk "J" []]
        = Except.error "AttributeError: Job object has no attribute split" ∧
    flatten_jobset [JobT.mk "J" []] = {JobT.mk "J" []} := by
  refine ⟨?_, rfl, by decide⟩
  intro joblist gs h
  simp only [run_dependency_graph_final] at h
  split at h
  · split at h
    · injection h with h
      exact h.symm
    · simp at h
  · simp at h

/-- Witness for C5: the empty joblist reaches submission and the list
submitted is empty. -/
theorem C5_run_dependency_graph_submits_nothing_witness :
    ([] : List JobGroup) = [] :=
  C5_run_dependency_graph_submits_nothing.1 [] [] rfl

/-- C6: the flattened set produced by the `populate_jobset` loop
contains a job exactly when it is reachable from some root through
dependency edges (roots included); the result is a set, so every such
job appears exactly once however many dependents reference it, and
the diamond A→{B,C}, B→D, C→D flattens to exactly `{A, B, C, D}`. -/
theorem C6_flatten_reachable_exactly_once :
    (∀ (jobgraph : List JobT) (j : JobT),
        j ∈ flatten_jobset jobgraph
          ↔ ∃ r ∈ jobgraph, Relation.ReflTransGen DepStep r j) ∧
    (∀ jobgraph : List JobT, (flatten_jobset jobgraph).val.Nodup) ∧
    flatten_jobset
        [JobT.mk "A" [JobT.mk "B" [JobT.mk "D" []],
          JobT.mk "C" [JobT.mk "D" []]]]
      = {JobT.mk "A" [JobT.mk "B" [JobT.mk "D" []],
          JobT.mk "C" [JobT.mk "D" []]],
         JobT.mk "B" [JobT.mk "D" []],
         JobT.mk "C" [JobT.mk "D" []],
         JobT.mk "D" []} :=
  ⟨mem_flatten_jobset, fun jobgraph => (flatten_jobset jobgraph).nodup,
    by decide⟩

/-- C7 as amended: `tasks ≥ 1` holds whenever every argument value
list is non-empty (the source yields `tasks = 0` when some value list
is empty); an empty arguments mapping yields `tasks = 1` and a script
with no array declarations and no decoding statements; an argument
whose value list has length 1 still contributes its array-declaration
line and its decoding/substitution lines to the emitted script. -/
theorem C7_tasks_amended (args : List (String × List String))
    (command : String) :
    ((∀ p ∈ args, p.2 ≠ []) → 1 ≤ (generate_script args command).2) ∧
    ((generate_script [] command).2 = 1 ∧
      (generate_script [] command).1
        = "let \"TASK_ID=$SGE_TASK_ID - 1\"\n" ++ "\n" ++ "\n"
            ++ command ++ "\n") ∧
    (∀ k v, (k, [v]) ∈ args →
      (∃ pre post, (generate_script args command).1
          = pre ++ (arrayLine k [v] ++ post)) ∧
      (∃ pre post, (generate_script args command).1
          = pre ++ (decodeLines k 1 ++ post))) := by
  refine ⟨?_, ⟨rfl, by simp [generate_script_fst, scriptConcat]⟩, ?_⟩
  · intro hne
    rw [generate_script_snd]
    apply Nat.succ_le_of_lt
    apply List.prod_pos
    intro a ha
    obtain ⟨p, hp, rfl⟩ := List.mem_map.mp ha
    exact List.length_pos.mpr (hne p hp)
  · intro k v hkv
    constructor
    · obtain ⟨pre, post, hpp⟩ :=
        scriptConcat_split (fun p => arrayLine p.1 p.2) args (k, [v]) hkv
      refine ⟨"let \"TASK_ID=$SGE_TASK_ID - 1\"\n" ++ pre,
        post ++ "\n"
          ++ scriptConcat (args.map (fun p => decodeLines p.1 p.2.length))
          ++ "\n" ++ command ++ "\n", ?_⟩
      rw [generate_script_fst, hpp]
      simp [String.append_assoc]
    · obtain ⟨pre, post, hpp⟩ :=
        scriptConcat_split (fun p => decodeLines p.1 p.2.length)
          args (k, [v]) hkv
      refine ⟨"let \"TASK_ID=$SGE_TASK_ID - 1\"\n"
          ++ scriptConcat (args.map (fun p => arrayLine p.1 p.2))
          ++ "\n" ++ pre,
        post ++ "\n" ++ command ++ "\n", ?_⟩
      rw [generate_script_fst, hpp]
      simp [String.append_assoc]

/-- Counterexample to C7 as stated: a JobGroup whose single argument
has an empty value list gets `tasks = 0`, so `tasks ≥ 1` does not
hold for every JobGroup. -/
theorem C7_tasks_counterexample :
    ¬ (1 ≤ (JobGroup.init "g" "c" none [("a", [])]).tasks) := by decide

/-- Witness for C7: with the single-value sweep `{a:[7]}` the task
count is positive (it is 1), and the script still carries the array
declaration and the decoding lines for `a`. -/
theorem C7_tasks_amended_witness :
    1 ≤ (generate_script [("a", ["7"])] "c").2 ∧
    (∃ pre post, (generate_script [("a", ["7"])] "c").1
        = pre ++ (arrayLine "a" ["7"] ++ post)) :=
  have h := C7_tasks_amended [("a", ["7"])] "c"
  ⟨h.1 (by decide), (h.2.2 "a" "7" (by decide)).1⟩

/-- C8: `build_directories` is idempotent and total — it never fails,
whether or not the root or the subdirectories already exist, because
every `os.mkdir` is guarded by `os.path.exists`; running it on its own
output changes nothing; and on a root under which nothing existed
before, exactly the four subdirectories `output`, `stderr`, `stdout`
and `jobs` exist under the root afterwards. -/
theorem C8_build_directories_idempotent (root_dir : FsPath)
    (fs : Finset FsPath)
    (hfresh : ∀ s : String, os_path_join root_dir s ∉ fs) :
    build_directories root_dir fs
        = Except.ok (build_directories_set root_dir fs) ∧
    build_directories root_dir (build_directories_set root_dir fs)
        = Except.ok (build_directories_set root_dir fs) ∧
    (∀ s : String,
        os_path_join root_dir s ∈ build_directories_set root_dir fs
          ↔ s ∈ (["output", "stderr", "stdout", "jobs"] : List String)) := by
  have hidem : build_directories_set root_dir (build_directories_set root_dir fs)
      = build_directories_set root_dir fs := by
    ext p
    rw [mem_build_directories_set, mem_build_directories_set]
    tauto
  refine ⟨build_directories_ok _ _, ?_, ?_⟩
  · rw [build_directories_ok, hidem]
  · intro s
    rw [mem_build_directories_set]
    constructor
    · rintro (h | h | h | h | h | h)
      · exact absurd h (os_path_join_ne_root _ _)
      · rw [os_path_join_inj] at h
        simp [h]
      · rw [os_path_join_inj] at h
        simp [h]
      · rw [os_path_join_inj] at h
        simp [h]
      · rw [os_path_join_inj] at h
        simp [h]
      · exact absurd h (hfresh s)
    · intro hs
      rcases (by simpa using hs :
          s = "output" ∨ s = "stderr" ∨ s = "stdout" ∨ s = "jobs")
        with h | h | h | h <;> subst h <;> simp

/-- Witness for C8 at the concrete root `r` over the empty filesystem:
the call succeeds, a second call returns the same state, and the
`jobs` subdirectory exists under the root. -/
theorem C8_build_directories_idempotent_witness :
    build_directories ["r"] ∅
        = Except.ok (build_directories_set ["r"] ∅) ∧
    build_directories ["r"] (build_directories_set ["r"] ∅)
        = Except.ok (build_directories_set ["r"] ∅) ∧
    (os_path_join ["r"] "jobs" ∈ build_directories_set ["r"] ∅
      ↔ "jobs" ∈ (["output", "stderr", "stdout", "jobs"] : List String)) :=
  have h := C8_build_directories_idempotent ["r"] ∅
    (fun _ => Finset.not_mem_empty _)
  ⟨h.1, h.2.1, h.2.2 "jobs"⟩

/-- C9: the claim — `JobGroup.wait` sleeps 5, then 10, 20, 40, 60,
60, … and terminates exactly when the `qstat` liveness query no
longer finds the job — is the spec's §4.5 intent, but the source
cannot exhibit any of it: `run_sge.py` never imports `time`, so the
first statement of the first loop iteration, `time.sleep(interval)`
at line 111, raises `NameError` before any sleep or any liveness
check, whatever the liveness oracle and however long the run is
allowed to go. -/
theorem C9_wait_raises_name_error :
    ∀ (alive : Nat → Bool) (fuel : Nat),
      wait_call alive (fuel + 1)
        = Except.error "NameError: name time is not defined" :=
  fun _ _ => rfl

/-- C10: `extract_submittable_jobs` returns a subset of the waiting
list (it never invents jobs), and every waiting job with an empty
dependency list is always in the returned submittable list. -/
theorem C10_extract_submittable_sound (sub : Finset JobT)
    (waiting : List JobT) :
    (∀ j ∈ extract_submittable_jobs sub waiting, j ∈ waiting) ∧
    (∀ j ∈ waiting, j.deps = [] → j ∈ extract_submittable_jobs sub waiting) := by
  constructor
  · intro j hj
    exact (List.mem_filter.mp hj).1
  · intro j hj hdeps
    apply List.mem_filter.mpr
    refine ⟨hj, ?_⟩
    rw [hdeps]
    rfl

/-- Witness for C10: a dependency-free waiting job is submittable even
when nothing has been submitted yet. -/
theorem C10_extract_submittable_sound_witness :
    JobT.mk "solo" [] ∈ extract_submittable_jobs ∅ [JobT.mk "solo" []] :=
  (C10_extract_submittable_sound ∅ [JobT.mk "solo" []]).2
    (JobT.mk "solo" []) (by decide) rfl

end RunSge
